import Mathlib

/-!
ClassStacks sheets client (`integration.js`): a shallow embedding

The class `ClassStacksSheets` is embedded as pure functions over explicit
state.  The browser environment (network replies, `navigator.userAgent`,
`Date.now()`, the `URL` parser, `setInterval`) is passed in as data.

Modelling conventions

* The own properties of a JavaScript object are an association list with
  unique-key update (`Obj.set`): a write replaces the value of an existing
  key in place and appends a new key otherwise.
* The dictionaries the client fills under keys it does not control (the
  caches, the timer registry) are plain objects `{}`: they inherit from
  `Object.prototype`, and a write to the key `__proto__` goes to the
  inherited setter.  `Dict` and `objectPrototypeKeys` model this.
* Primitive values are `JSVal`; numbers are the safe integers.
* An `async` method is a function into `Except`: `.ok` is a resolved
  promise and `.error` a rejected one.
-/

namespace ClassStacks

/-! ## JavaScript values -/

/-- The primitive JavaScript values that flow through the client. -/
inductive JSVal where
  | undefined
  | null
  | bool (b : Bool)
  | num (n : Int)
  | str (s : String)
  deriving DecidableEq, Repr

namespace JSVal


/-- ECMAScript `ToBoolean`. -/
def truthy : JSVal → Bool
  | undefined => false
  | null => false
  | bool b => b
  | num n => n != 0
  | str s => s != ""

/-- ECMAScript `ToString` (also the conversion applied to property keys and
to the values handed to `URLSearchParams.append`); a safe integer prints as
its decimal digits. -/
def toStr : JSVal → String
  | undefined => "undefined"
  | null => "null"
  | bool true => "true"
  | bool false => "false"
  | num n => toString n
  | str s => s

/-- The test `v !== undefined && v !== null`. -/
def present : JSVal → Bool
  | undefined => false
  | null => false
  | _ => true

end JSVal

/-! ## Objects used as dictionaries -/

/-- A JavaScript object used as a string keyed dictionary. -/
abbrev Obj (α : Type) := List (String × α)

namespace Obj

/-- Property read `o[k]` (`none` is `undefined`). -/
def get {α : Type} (o : Obj α) (k : String) : Option α :=
  match o with
  | [] => none
  | (k', v) :: rest => if k' = k then some v else get rest k

/-- Property write `o[k] = v`. -/
def set {α : Type} (o : Obj α) (k : String) (v : α) : Obj α :=
  match o with
  | [] => [(k, v)]
  | (k', v') :: rest => if k' = k then (k, v) :: rest else (k', v') :: set rest k v

/-- The statement `delete o[k]`. -/
def delete {α : Type} (o : Obj α) (k : String) : Obj α :=
  o.filter (fun e => e.1 != k)

end Obj

/-- The names of the properties a plain object inherits from
`Object.prototype`.  Each holds a function, or for `__proto__` the
prototype itself, so each reads as truthy. -/
def objectPrototypeKeys : List String :=
  ["constructor", "hasOwnProperty", "isPrototypeOf", "propertyIsEnumerable",
   "toLocaleString", "toString", "valueOf", "__proto__", "__defineGetter__",
   "__defineSetter__", "__lookupGetter__", "__lookupSetter__"]

/-- A plain object `{}` used as a dictionary: its own properties and its
prototype, `none` for `Object.prototype` and `some p` once a write to
`__proto__` has installed the object `p`. -/
structure Dict (α : Type) where
  own : Obj α
  proto : Option α
  deriving DecidableEq, Repr

/-- What a property read `d[k]` finds. -/
inductive Found (α : Type) where
  | own (v : α)
  | prototypeObject (p : α)
  | viaPrototype (p : α) (k : String)
  | builtin (k : String)
  | undefined
  deriving DecidableEq, Repr

namespace Dict

/-- The literal `{}`. -/
def empty {α : Type} : Dict α := ⟨[], none⟩

/-- Property read `d[k]`: an own property; else, with an installed
prototype `p`, the prototype itself for `__proto__` and `p[k]` for another
key; else the property of `Object.prototype`, if it has one of that name. -/
def read {α : Type} (d : Dict α) (k : String) : Found α :=
  match Obj.get d.own k with
  | some v => .own v
  | none =>
    match d.proto with
    | some p => if k = "__proto__" then .prototypeObject p else .viaPrototype p k
    | none => if k ∈ objectPrototypeKeys then .builtin k else .undefined

/-- Property write `d[k] = v`.  For the key `__proto__`, unless it is an own
property, the inherited setter runs: an object becomes the prototype and any
other value is ignored.  Every other key becomes or stays an own property. -/
def write {α : Type} (isObject : α → Bool) (d : Dict α) (k : String) (v : α) : Dict α :=
  if k = "__proto__" && (Obj.get d.own k).isNone then
    if isObject v then { d with proto := some v } else d
  else { d with own := Obj.set d.own k v }

end Dict

/-! ## Records exchanged with the service -/

/-- A student record; only the fields the client reads are kept. -/
structure Student where
  id : JSVal
  name : String
  lastActive : Option Int
  locked : JSVal
  deriving DecidableEq, Repr

/-- A class record. -/
structure Class where
  id : JSVal
  name : String
  deriving DecidableEq, Repr

/-- A message record. -/
structure Message where
  body : String
  sender : String
  read : JSVal
  deriving DecidableEq, Repr

/-- The field `this.cache`. -/
structure Cache where
  students : Dict Student
  classes : Dict Class
  messages : Dict (Option (List Message))
  activities : Dict JSVal
  deriving DecidableEq, Repr

/-- The cache built by the constructor. -/
def Cache.empty : Cache := ⟨Dict.empty, Dict.empty, Dict.empty, Dict.empty⟩

/-- The reducer `(acc, student) => { acc[student.id] = student; return acc; }`
folded from `{}`, for any record type with an `id`; a record is an object. -/
def indexById {α : Type} (idOf : α → JSVal) (xs : List α) : Dict α :=
  xs.foldl (fun acc x => Dict.write (fun _ => true) acc (idOf x).toStr x) Dict.empty

/-- Methods `getCachedStudent` and `getCachedClass`: the read
`this.cache.students[studentId]`. -/
def getCached {α : Type} (d : Dict α) (id : JSVal) : Found α :=
  Dict.read d id.toStr

/-- The body of a `getStudents` reply: `response.students`, `none` when the
field is missing. -/
structure RosterReply where
  students : Option (List Student)
  deriving DecidableEq, Repr

/-- The body of a `getClasses` reply. -/
structure ClassesReply where
  classes : Option (List Class)
  deriving DecidableEq, Repr

/-- Method `getStudents`, after `makeRequest` has settled with `reply`.
Reading `.reduce` of a missing `students` field is a `TypeError`. -/
def getStudents (cache : Cache) (reply : Except String RosterReply) :
    Except String (Cache × List Student) :=
  match reply with
  | .error e => .error e
  | .ok response =>
    match response.students with
    | none => .error "TypeError"
    | some students =>
      .ok ({ cache with students := indexById Student.id students }, students)

/-- Method `getClasses`, after `makeRequest` has settled with `reply`. -/
def getClasses (cache : Cache) (reply : Except String ClassesReply) :
    Except String (Cache × List Class) :=
  match reply with
  | .error e => .error e
  | .ok response =>
    match response.classes with
    | none => .error "TypeError"
    | some classes =>
      .ok ({ cache with classes := indexById Class.id classes }, classes)

/-! ## Request construction (`makeRequest` and the action methods) -/

/-- The keys of an object, `Object.keys(o)`. -/
def Obj.keys {α : Type} (o : Obj α) : List String :=
  o.map Prod.fst

/-- The entries of `url.searchParams` when `makeRequest(action, params)`
issues the fetch.  `baseUrl` has no query part, so the entries start empty;
`action` is appended first, then every key of `params` whose value is
neither `undefined` nor `null`, with the value converted to a string. -/
def makeRequestQuery (action : String) (params : Obj JSVal) : List (String × String) :=
  (Obj.keys params).foldl
    (fun q key =>
      match Obj.get params key with
      | some v => if v.present then q ++ [(key, v.toStr)] else q
      | none => q)
    [("action", action)]

/-- What the loop of `makeRequest` appends for one key. -/
def appended (params : Obj JSVal) (key : String) : List (String × String) :=
  match Obj.get params key with
  | some v => if v.present then [(key, v.toStr)] else []
  | none => []

/-- The test `/a|b|.../.test(s)` for a case sensitive alternation of
literals: some alternative occurs in `s`. -/
def regexTestAny (alts : List String) (s : String) : Bool :=
  alts.any fun a => s.toList.tails.any fun t => a.toList.isPrefixOf t

/-- Method `getDeviceInfo`, with `navigator.userAgent` as argument. -/
def getDeviceInfo (ua : String) : String :=
  if regexTestAny ["Mobile", "Android", "iPhone", "iPad", "iPod"] ua then "Mobile"
  else if regexTestAny ["Tablet", "iPad"] ua then "Tablet"
  else "Desktop"

/-- A call of one of the fourteen action methods with its arguments
(an omitted argument is `undefined`). -/
inductive Call where
  | registerSchool (name email password : JSVal)
  | registerTeacher (name email password school : JSVal)
  | registerStudent (firstName lastName schoolCode : JSVal)
  | getStudents (schoolCode : JSVal)
  | updateStudentActivity (studentId : JSVal)
  | addStudentToClass (studentId classCode : JSVal)
  | createClass (name teacherId subject grade : JSVal) (blockedSites : List String)
  | getClasses (teacherId : JSVal)
  | sendMessageToStudent (studentId message sender : JSVal)
  | getMessages (studentId : JSVal)
  | lockStudent (studentId : JSVal)
  | unlockStudent (studentId : JSVal)
  | logActivity (studentId action classCode : JSVal)
  | getActivity (studentId limit : JSVal)
  deriving DecidableEq, Repr

/-- A default parameter value `x = d`: used when the argument is `undefined`. -/
def orDefault (x d : JSVal) : JSVal :=
  if x = .undefined then d else x

/-- The two arguments each action method hands to `makeRequest`: the remote
verb and the parameter object, in the order the object is built. -/
def requestOf (ua : String) : Call → String × Obj JSVal
  | .registerSchool name email password =>
    ("registerSchool", [("name", name), ("email", email), ("password", password)])
  | .registerTeacher name email password school =>
    ("registerTeacher",
      [("name", name), ("email", email), ("password", password), ("school", school)])
  | .registerStudent firstName lastName schoolCode =>
    ("registerStudent",
      [("firstName", firstName), ("lastName", lastName), ("schoolCode", schoolCode),
       ("device", .str (getDeviceInfo ua))])
  | .getStudents schoolCode =>
    let schoolCode := orDefault schoolCode .null
    ("getStudents", if schoolCode.truthy then Obj.set [] "schoolCode" schoolCode else [])
  | .updateStudentActivity studentId =>
    ("updateStudentActivity", [("studentId", studentId)])
  | .addStudentToClass studentId classCode =>
    ("addStudentToClass", [("studentId", studentId), ("classCode", classCode)])
  | .createClass name teacherId subject grade blockedSites =>
    ("createClass",
      [("name", name), ("teacherId", teacherId), ("subject", subject), ("grade", grade),
       ("blockedSites", .str (String.intercalate "," blockedSites))])
  | .getClasses teacherId =>
    let teacherId := orDefault teacherId .null
    ("getClasses", if teacherId.truthy then Obj.set [] "teacherId" teacherId else [])
  | .sendMessageToStudent studentId message sender =>
    ("sendMessage", [("studentId", studentId), ("message", message), ("from", sender)])
  | .getMessages studentId =>
    ("getMessages", [("studentId", studentId)])
  | .lockStudent studentId =>
    ("lockStudent", [("studentId", studentId)])
  | .unlockStudent studentId =>
    ("unlockStudent", [("studentId", studentId)])
  | .logActivity studentId action classCode =>
    ("logActivity",
      [("studentId", studentId), ("action", action),
       ("classCode", orDefault classCode (.str ""))])
  | .getActivity studentId limit =>
    let studentId := orDefault studentId .null
    let params : Obj JSVal := [("limit", orDefault limit (.num 100))]
    ("getActivity", if studentId.truthy then Obj.set params "studentId" studentId else params)

/-- The query entries of the request a call sends. -/
def queryOf (ua : String) (c : Call) : List (String × String) :=
  makeRequestQuery (requestOf ua c).1 (requestOf ua c).2

/-- The values of the `action` entries of a query, in order. -/
def actionValues (q : List (String × String)) : List String :=
  (q.filter fun e => e.1 = "action").map Prod.snd

/-! ## Local login -/

/-- The record `JSON.parse(localStorage.getItem('currentUser') || '{}')`. -/
abbrev Session := Obj JSVal

/-- Property read `user.k` on the parsed record. -/
def Session.field (user : Session) (k : String) : JSVal :=
  (Obj.get user k).getD .undefined

/-- Method `loginSchool`; `stored` is the parsed content of the
`currentUser` slot, `none` when the slot is empty.  Strict equality of
primitives is equality of values. -/
def loginSchool (stored : Option Session) (email _password : JSVal) : Except String Session :=
  let user : Session := stored.getD []
  if Session.field user "email" = email ∧ Session.field user "role" = .str "school" then
    .ok user
  else
    .error "Invalid credentials"

/-- Method `loginTeacher`. -/
def loginTeacher (stored : Option Session) (email _password : JSVal) : Except String Session :=
  let user : Session := stored.getD []
  if Session.field user "email" = email ∧ Session.field user "role" = .str "teacher" then
    .ok user
  else
    .error "Invalid credentials"

/-! ## Online predicate -/

/-- The value `new Date(t).getTime()` for an integer time value: `TimeClip`
yields `NaN` (`none`) beyond 8.64e15 ms from the epoch. -/
def dateGetTime (t : Int) : Option Int :=
  if t.natAbs > 8640000000000000 then none else some t

/-- Method `isStudentOnline`, with `Date.now()` as argument.  A missing
student, a missing `lastActive` and `lastActive = 0` are all falsy; a
comparison with `NaN` is false. -/
def isStudentOnline (now : Int) (student : Option Student) : Bool :=
  match student with
  | none => false
  | some s =>
    match s.lastActive with
    | none => false
    | some t =>
      if t = 0 then false
      else
        match dateGetTime t with
        | none => false
        | some lastActive => decide (now - lastActive < 30000)

/-! ## Polling -/

/-- The work a timer repeats: the callback closed over its argument. -/
inductive TimerTask where
  | studentPoll (studentId : JSVal)
  | teacherPoll (schoolCode : JSVal)
  deriving DecidableEq, Repr

/-- The client fields the polling methods touch, together with the timer
table of the host: the own properties of `this.pollingIntervals` (a plain
object whose prototype stays `Object.prototype`, only numbers being written
to it), the number of handles issued so far and the live timers with their
task and delay. -/
structure Sys where
  pollingIntervals : Obj Nat
  issued : Nat
  timers : List (Nat × TimerTask × Nat)
  deriving DecidableEq, Repr

/-- Host function `setInterval`: registers the task and returns a fresh
handle; handles are integers greater than zero. -/
def setInterval (s : Sys) (task : TimerTask) (delay : Nat) : Sys × Nat :=
  let handle := s.issued + 1
  ({ s with issued := handle, timers := s.timers ++ [(handle, task, delay)] }, handle)

/-- Host function `clearInterval`. -/
def clearInterval (s : Sys) (handle : Nat) : Sys :=
  { s with timers := s.timers.filter fun t => t.1 != handle }

/-- Truthiness of `this.pollingIntervals[key]`: an own handle when it is not
zero, and otherwise any property inherited from `Object.prototype`. -/
def pollingActive (s : Sys) (key : String) : Bool :=
  match Obj.get s.pollingIntervals key with
  | some handle => handle != 0
  | none => objectPrototypeKeys.contains key

/-- The write `this.pollingIntervals[key] = handle`.  A handle is a number,
which the inherited `__proto__` setter ignores. -/
def registerHandle (registry : Obj Nat) (key : String) (handle : Nat) : Obj Nat :=
  if key = "__proto__" && (Obj.get registry key).isNone then registry
  else Obj.set registry key handle

/-- Method `startStudentPolling`. -/
def startStudentPolling (s : Sys) (studentId : JSVal) : Sys :=
  if pollingActive s studentId.toStr then s
  else
    let (s1, handle) := setInterval s (.studentPoll studentId) 5000
    { s1 with pollingIntervals := registerHandle s1.pollingIntervals studentId.toStr handle }

/-- Method `startTeacherPolling`. -/
def startTeacherPolling (s : Sys) (schoolCode : JSVal) : Sys :=
  if pollingActive s "teacher" then s
  else
    let (s1, handle) := setInterval s (.teacherPoll schoolCode) 3000
    { s1 with pollingIntervals := registerHandle s1.pollingIntervals "teacher" handle }

/-- Method `stopPolling`.  When the guard passes on an inherited property,
`clearInterval` receives no handle and `delete` finds no own key. -/
def stopPolling (s : Sys) (key : JSVal) : Sys :=
  if pollingActive s key.toStr then
    match Obj.get s.pollingIntervals key.toStr with
    | some handle =>
      let s1 := clearInterval s handle
      { s1 with pollingIntervals := Obj.delete s1.pollingIntervals key.toStr }
    | none => s
  else s

/-- The body of a `getMessages` reply. -/
structure MessagesReply where
  messages : Option (List Message)
  deriving DecidableEq, Repr

/-- Method `getMessages`, after `makeRequest` has settled with `reply`:
`response.messages` is cached under the student id and returned, also when
the field is missing; an array is an object, a missing field is not. -/
def getMessages (cache : Cache) (studentId : JSVal) (reply : Except String MessagesReply) :
    Except String (Cache × Option (List Message)) :=
  match reply with
  | .error e => .error e
  | .ok response =>
    .ok ({ cache with
            messages := Dict.write Option.isSome cache.messages studentId.toStr
              response.messages },
         response.messages)

/-- The events handed to `window.dispatchEvent`. -/
inductive Event where
  | message (detail : Message)
  | locked (detail : Bool)
  | update (students : List Student) (classes : List Class) (timestamp : Int)
  deriving DecidableEq, Repr

/-- The name of an event, the first argument of `new CustomEvent`. -/
def Event.name : Event → String
  | .message _ => "classstacks:message"
  | .locked _ => "classstacks:locked"
  | .update _ _ _ => "classstacks:update"

/-- How the three requests of one learner tick settle. -/
structure StudentTickNet where
  activity : Except String Unit
  messages : Except String MessagesReply
  roster : Except String RosterReply

/-- One run of the callback installed by `startStudentPolling`: the cache
afterwards and the events dispatched, in order.  An exception anywhere in
the `try` block abandons the rest of the tick. -/
def studentTick (cache : Cache) (studentId : JSVal) (net : StudentTickNet) :
    Cache × List Event :=
  match net.activity with
  | .error _ => (cache, [])
  | .ok _ =>
    match getMessages cache studentId net.messages with
    | .error _ => (cache, [])
    | .ok (cache1, none) => (cache1, [])
    | .ok (cache1, some messages) =>
      let dispatched : List Event :=
        match messages.head? with
        | some lastMessage =>
          if !lastMessage.read.truthy then [Event.message lastMessage] else []
        | none => []
      match getStudents cache1 net.roster with
      | .error _ => (cache1, dispatched)
      | .ok (cache2, students) =>
        match students.find? (fun st => st.id = studentId) with
        | some student =>
          if student.locked.truthy then (cache2, dispatched ++ [Event.locked true])
          else (cache2, dispatched)
        | none => (cache2, dispatched)

/-! ## Domain extraction -/

/-- The call `s.replace(pat, rep)` with a string pattern and a replacement
free of `$`: the first occurrence of `pat` in `s`, wherever it is, is
replaced. -/
def replaceFirst (pat rep : List Char) : List Char → List Char
  | [] => if pat = [] then rep else []
  | c :: cs =>
    if pat.isPrefixOf (c :: cs) then rep ++ (c :: cs).drop pat.length
    else c :: replaceFirst pat rep cs

/-- Case-insensitive match of one pattern letter (flag `i`, no flag `u`):
the letter itself or its upper case form. -/
def ciChar (p c : Char) : Bool :=
  c = p || c = p.toUpper

/-- A whole string matched case-insensitively against a literal of the
pattern, letter by letter. -/
def ciEq : List Char → List Char → Bool
  | [], [] => true
  | p :: ps, c :: cs => ciChar p c && ciEq ps cs
  | _, _ => false

/-- The strings `http://` and `https://`, letters in either case. -/
def isScheme (s : List Char) : Bool :=
  ciEq "http://".toList s || ciEq "https://".toList s

/-- The string `www.`, letters in either case. -/
def isWww (s : List Char) : Bool :=
  ciEq "www.".toList s

/-- In `r ++ rest`, `r` is a maximal run of characters other than `/`: it is
not empty, holds no `/`, and ends at a `/` or at the end of the input. -/
def MaximalRun (r rest : List Char) : Prop :=
  r ≠ [] ∧ '/' ∉ r ∧ (rest = [] ∨ rest.head? = some '/')

/-- A literal of the pattern matched at the head of the input, then the
continuation on what is left. -/
def lit {α : Type} : List Char → (List Char → Option α) → List Char → Option α
  | [], k, s => k s
  | _ :: _, _, [] => none
  | p :: ps, k, c :: cs => if ciChar p c then lit ps k cs else none

/-- A greedy optional item `(...)?`: first with the item, then, when the
remainder of the pattern fails, without it. -/
def opt {α : Type} (item : (List Char → Option α) → List Char → Option α)
    (k : List Char → Option α) (s : List Char) : Option α :=
  (item k s).orElse fun _ => k s

/-- The capture group `([^\/]+)` at the end of the pattern: the longest run
of characters other than `/`, at least one. -/
def hostRun (s : List Char) : Option (List Char) :=
  match s.takeWhile (fun c => c != '/') with
  | [] => none
  | c :: cs => some (c :: cs)

/-- The pattern `(?:https?:\/\/)?(?:www\.)?([^\/]+)` with flag `i`, tried at
the head of the input; the result is capture group 1. -/
def domainRegexAt (s : List Char) : Option (List Char) :=
  opt (fun k => lit "http".toList (opt (lit "s".toList) (lit "://".toList k)))
    (opt (lit "www.".toList) hostRun) s

/-- The call `url.match(re)`, group 1: the pattern is tried at each
position from the left, the first position where it matches wins. -/
def domainRegexExec : List Char → Option (List Char)
  | [] => domainRegexAt []
  | c :: cs =>
    match domainRegexAt (c :: cs) with
    | some capture => some capture
    | none => domainRegexExec cs

/-- Method `extractDomain`.  The host parser is an argument: `hostnameOf url`
is `new URL(url).hostname`, `none` when the constructor throws. -/
def extractDomain (hostnameOf : String → Option String) (url : String) : String :=
  match hostnameOf url with
  | some domain => String.mk (replaceFirst "www.".toList [] domain.toList)
  | none =>
    match domainRegexExec url.toList with
    | some capture => String.mk capture
    | none => url

/-! ## Dictionary lemmas -/

theorem Obj.get_set_self {α : Type} (o : Obj α) (k : String) (v : α) :
    Obj.get (Obj.set o k v) k = some v := by
  induction o with
  | nil => simp [Obj.set, Obj.get]
  | cons e rest ih =>
    obtain ⟨k', v'⟩ := e
    by_cases h : k' = k
    · simp [Obj.set, Obj.get, h]
    · simp [Obj.set, Obj.get, h, ih]

theorem Obj.get_set_other {α : Type} (o : Obj α) (k j : String) (v : α) (h : k ≠ j) :
    Obj.get (Obj.set o k v) j = Obj.get o j := by
  induction o with
  | nil => simp [Obj.set, Obj.get, h]
  | cons e rest ih =>
    obtain ⟨k', v'⟩ := e
    by_cases hk : k' = k
    · subst hk
      simp [Obj.set, Obj.get, h]
    · by_cases hj : k' = j
      · subst hj
        simp [Obj.set, Obj.get, hk]
      · simp [Obj.set, Obj.get, hk, hj, ih]

/-- Folding the reducer over `xs` from any accumulator: a key is looked up
as the last element of `xs` carrying it, else in the accumulator. -/
theorem get_foldl_set {α : Type} (idOf : α → JSVal) (xs : List α) (acc : Obj α) (k : String) :
    Obj.get (xs.foldl (fun a x => Obj.set a (idOf x).toStr x) acc) k
      = ((xs.reverse.find? (fun x => (idOf x).toStr = k)).orElse fun _ => Obj.get acc k) := by
  induction xs generalizing acc with
  | nil => simp
  | cons x rest ih =>
    rw [List.foldl_cons, ih]
    simp only [List.reverse_cons, List.find?_append]
    cases hrest : rest.reverse.find? (fun x => decide ((idOf x).toStr = k)) with
    | some y => simp
    | none =>
      by_cases hx : (idOf x).toStr = k
      · subst hx
        simp [Obj.get_set_self]
      · simp [hx, Obj.get_set_other _ _ _ _ hx]

theorem foldl_write_own {α : Type} (idOf : α → JSVal) (xs : List α) (d : Dict α)
    (h : ∀ x ∈ xs, (idOf x).toStr ≠ "__proto__") :
    xs.foldl (fun acc x => Dict.write (fun _ => true) acc (idOf x).toStr x) d
      = { own := xs.foldl (fun a x => Obj.set a (idOf x).toStr x) d.own, proto := d.proto } := by
  induction xs generalizing d with
  | nil => rfl
  | cons x rest ih =>
    have hx : (idOf x).toStr ≠ "__proto__" := h x (List.mem_cons_self _ _)
    rw [List.foldl_cons, List.foldl_cons, ih _ (fun y hy => h y (List.mem_cons_of_mem _ hy))]
    simp [Dict.write, hx]

theorem indexById_own {α : Type} (idOf : α → JSVal) (xs : List α)
    (h : ∀ x ∈ xs, (idOf x).toStr ≠ "__proto__") :
    indexById idOf xs
      = { own := xs.foldl (fun a x => Obj.set a (idOf x).toStr x) [], proto := none } := by
  unfold indexById
  rw [foldl_write_own idOf xs Dict.empty h]
  rfl

theorem get_indexById {α : Type} (idOf : α → JSVal) (xs : List α) (k : String)
    (h : ∀ x ∈ xs, (idOf x).toStr ≠ "__proto__") :
    Obj.get (indexById idOf xs).own k = xs.reverse.find? (fun x => (idOf x).toStr = k) := by
  rw [indexById_own idOf xs h]
  simp only
  rw [get_foldl_set]
  cases xs.reverse.find? (fun x => decide ((idOf x).toStr = k)) <;> simp [Obj.get]

theorem get_indexById_absent {α : Type} (idOf : α → JSVal) (xs : List α) (k : String)
    (h : ∀ x ∈ xs, (idOf x).toStr ≠ "__proto__") (hk : ∀ x ∈ xs, (idOf x).toStr ≠ k) :
    Obj.get (indexById idOf xs).own k = none := by
  rw [get_indexById idOf xs k h, List.find?_eq_none]
  intro x hx
  simpa using hk x (List.mem_reverse.mp hx)

theorem read_indexById_absent {α : Type} (idOf : α → JSVal) (xs : List α) (k : String)
    (h : ∀ x ∈ xs, (idOf x).toStr ≠ "__proto__") (hk : ∀ x ∈ xs, (idOf x).toStr ≠ k)
    (hb : k ∉ objectPrototypeKeys) :
    Dict.read (indexById idOf xs) k = .undefined := by
  have hown := get_indexById_absent idOf xs k h hk
  have hproto : (indexById idOf xs).proto = none := by rw [indexById_own idOf xs h]
  simp [Dict.read, hown, hproto, hb]

/-! ## C1: a fetch replaces the cache -/

/-- C1, as stated, fails for a reply holding a student whose id is
`__proto__`: the reducer's write goes to the inherited setter, so after the
fetch the record is stored under no key, it is the prototype of the cache
object, and a key that is no id of the reply, such as `name`, is read
through it instead of being absent. -/
theorem fetch_with_proto_id :
    (∃ cache',
        getStudents Cache.empty
            (.ok ⟨some [{ id := .str "__proto__", name := "Ada", lastActive := none,
                          locked := .bool false }]⟩)
          = .ok (cache', [{ id := .str "__proto__", name := "Ada", lastActive := none,
                            locked := .bool false }])
        ∧ cache'.students.own = []
        ∧ cache'.students.proto
            = some { id := .str "__proto__", name := "Ada", lastActive := none,
                     locked := .bool false }
        ∧ getCached cache'.students (.str "name")
            = .viaPrototype { id := .str "__proto__", name := "Ada", lastActive := none,
                              locked := .bool false } "name") :=
  ⟨_, rfl, rfl, rfl, rfl⟩

/-- C1 (amended): when no record of the reply has the id `__proto__`,
`getStudents` resolves with the reply list unchanged and leaves as students
cache a fresh object built from the reply alone, whatever was cached before:
its prototype is untouched, each key holds as own entry the last reply
student with that id, and a key carried by no reply student has no own
entry and reads as `undefined` unless it names a property inherited from
`Object.prototype`.  `getClasses` does the same for the classes cache. -/
theorem fetch_replaces_cache (cache : Cache) (students : List Student) (classes : List Class)
    (hS : ∀ x ∈ students, x.id.toStr ≠ "__proto__")
    (hC : ∀ x ∈ classes, x.id.toStr ≠ "__proto__") :
    (∃ cache', getStudents cache (.ok ⟨some students⟩) = .ok (cache', students)
      ∧ cache'.students = indexById Student.id students
      ∧ cache'.students.proto = none
      ∧ (∀ k, Obj.get cache'.students.own k
            = students.reverse.find? (fun x => x.id.toStr = k))
      ∧ (∀ k, (∀ x ∈ students, x.id.toStr ≠ k) →
            Obj.get cache'.students.own k = none
            ∧ (k ∉ objectPrototypeKeys → Dict.read cache'.students k = .undefined)))
    ∧ (∃ cache', getClasses cache (.ok ⟨some classes⟩) = .ok (cache', classes)
      ∧ cache'.classes = indexById Class.id classes
      ∧ cache'.classes.proto = none
      ∧ (∀ k, Obj.get cache'.classes.own k
            = classes.reverse.find? (fun x => x.id.toStr = k))
      ∧ (∀ k, (∀ x ∈ classes, x.id.toStr ≠ k) →
            Obj.get cache'.classes.own k = none
            ∧ (k ∉ objectPrototypeKeys → Dict.read cache'.classes k = .undefined))) := by
  refine ⟨⟨_, rfl, rfl, ?_, ?_, ?_⟩, ⟨_, rfl, rfl, ?_, ?_, ?_⟩⟩
  · show (indexById Student.id students).proto = none
    rw [indexById_own Student.id students hS]
  · intro k
    exact get_indexById Student.id students k hS
  · intro k hk
    exact ⟨get_indexById_absent Student.id students k hS hk,
      read_indexById_absent Student.id students k hS hk⟩
  · show (indexById Class.id classes).proto = none
    rw [indexById_own Class.id classes hC]
  · intro k
    exact get_indexById Class.id classes k hC
  · intro k hk
    exact ⟨get_indexById_absent Class.id classes k hC hk,
      read_indexById_absent Class.id classes k hC hk⟩

/-- A fetch of two students over a cache that held a third: the stale id
`s9` reads as `undefined` afterwards. -/
theorem fetch_replaces_cache_witness :
    ∃ cache',
      getStudents
          { Cache.empty with
            students := ⟨[("s9", { id := .str "s9", name := "Old", lastActive := none,
                                   locked := .bool false })], none⟩ }
          (.ok ⟨some [{ id := .str "s1", name := "Ada", lastActive := none,
                        locked := .bool false },
                      { id := .str "s2", name := "Bob", lastActive := none,
                        locked := .bool true }]⟩)
        = .ok (cache', [{ id := .str "s1", name := "Ada", lastActive := none,
                          locked := .bool false },
                        { id := .str "s2", name := "Bob", lastActive := none,
                          locked := .bool true }])
      ∧ Dict.read cache'.students "s9" = .undefined := by
  obtain ⟨cache', h1, -, -, -, h2⟩ :=
    (fetch_replaces_cache
      { Cache.empty with
        students := ⟨[("s9", { id := .str "s9", name := "Old", lastActive := none,
                               locked := .bool false })], none⟩ }
      [{ id := .str "s1", name := "Ada", lastActive := none, locked := .bool false },
       { id := .str "s2", name := "Bob", lastActive := none, locked := .bool true }]
      [] (by decide) (by decide)).1
  exact ⟨cache', h1, (h2 "s9" (by decide)).2 (by decide)⟩

/-! ## C2: the query built by `makeRequest` -/

theorem makeRequest_foldl (params : Obj JSVal) (ks : List String) (q : List (String × String)) :
    ks.foldl
      (fun q key =>
        match Obj.get params key with
        | some v => if v.present then q ++ [(key, v.toStr)] else q
        | none => q) q
      = q ++ ks.flatMap (appended params) := by
  induction ks generalizing q with
  | nil => simp
  | cons k rest ih =>
    rw [List.foldl_cons, ih, List.flatMap_cons]
    unfold appended
    cases Obj.get params k with
    | none => simp
    | some v => cases hv : v.present <;> simp [hv]

theorem makeRequestQuery_eq (action : String) (params : Obj JSVal) :
    makeRequestQuery action params
      = ("action", action) :: (Obj.keys params).flatMap (appended params) := by
  unfold makeRequestQuery
  rw [makeRequest_foldl]
  rfl

theorem Obj.mem_keys_of_get {α : Type} (o : Obj α) (k : String) (v : α)
    (h : Obj.get o k = some v) : k ∈ Obj.keys o := by
  induction o with
  | nil => simp [Obj.get] at h
  | cons e rest ih =>
    obtain ⟨k', v'⟩ := e
    by_cases hk : k' = k
    · simp [Obj.keys, hk]
    · simp only [Obj.get, hk, if_false] at h
      have := ih h
      simp only [Obj.keys] at this ⊢
      exact List.mem_cons_of_mem _ this

theorem mem_appended (params : Obj JSVal) (key : String) (e : String × String) :
    e ∈ appended params key
      ↔ ∃ v, Obj.get params key = some v ∧ v.present = true ∧ e = (key, v.toStr) := by
  unfold appended
  cases Obj.get params key with
  | none => simp
  | some v => cases hv : v.present <;> simp [hv]

/-- C2, as stated, fails on the key `action`: `logActivity` called without
an action label builds a parameter object whose `action` value is
`undefined`, and the query still has an entry with the key `action`. -/
theorem makeRequest_nullish_action_key :
    Obj.get [("studentId", JSVal.str "s1"), ("action", JSVal.undefined),
             ("classCode", JSVal.str "c1")] "action" = some JSVal.undefined
      ∧ makeRequestQuery "logActivity"
          [("studentId", JSVal.str "s1"), ("action", JSVal.undefined),
           ("classCode", JSVal.str "c1")]
        = [("action", "logActivity"), ("studentId", "s1"), ("classCode", "c1")]
      ∧ ("action", "logActivity")
          ∈ makeRequestQuery "logActivity"
              [("studentId", JSVal.str "s1"), ("action", JSVal.undefined),
               ("classCode", JSVal.str "c1")] := by
  decide

/-- C2 (amended): the query is the entry `action` followed by one entry per
key whose value is neither `null` nor `undefined`.  Hence a key other than
`action` with a `null` or `undefined` value has no entry, every key with
another value has an entry carrying the string form of that value, and no
entry besides `action` and those is present. -/
theorem makeRequest_query_entries (action : String) (params : Obj JSVal) :
    (∀ k v, k ≠ "action" → Obj.get params k = some v → v.present = false →
        ∀ e ∈ makeRequestQuery action params, e.1 ≠ k)
    ∧ (∀ k v, Obj.get params k = some v → v.present = true →
        (k, v.toStr) ∈ makeRequestQuery action params)
    ∧ (∀ e ∈ makeRequestQuery action params,
        e = ("action", action)
          ∨ ∃ v, Obj.get params e.1 = some v ∧ v.present = true ∧ e.2 = v.toStr)
    ∧ (makeRequestQuery action params).head? = some ("action", action) := by
  rw [makeRequestQuery_eq]
  refine ⟨?_, ?_, ?_, rfl⟩
  · intro k v hk hget hv e he
    rcases List.mem_cons.mp he with rfl | he
    · exact fun h => hk h.symm
    · obtain ⟨key, -, hmem⟩ := List.mem_flatMap.mp he
      obtain ⟨w, hw, hpres, rfl⟩ := (mem_appended params key e).mp hmem
      intro hkey
      simp only at hkey
      subst hkey
      rw [hget] at hw
      cases hw
      rw [hv] at hpres
      cases hpres
  · intro k v hget hv
    refine List.mem_cons_of_mem _ (List.mem_flatMap.mpr ⟨k, Obj.mem_keys_of_get params k v hget, ?_⟩)
    exact (mem_appended params k _).mpr ⟨v, hget, hv, rfl⟩
  · intro e he
    rcases List.mem_cons.mp he with rfl | he
    · exact Or.inl rfl
    · obtain ⟨key, -, hmem⟩ := List.mem_flatMap.mp he
      obtain ⟨w, hw, hpres, rfl⟩ := (mem_appended params key e).mp hmem
      exact Or.inr ⟨w, hw, hpres, rfl⟩

/-! ## C3: the `action` entries of each method -/

theorem actionValues_makeRequestQuery (action : String) (params : Obj JSVal)
    (h : "action" ∉ Obj.keys params) :
    actionValues (makeRequestQuery action params) = [action] := by
  rw [makeRequestQuery_eq]
  unfold actionValues
  have hnone : ((Obj.keys params).flatMap (appended params)).filter
      (fun e => decide (e.1 = "action")) = [] := by
    rw [List.filter_eq_nil_iff]
    intro e he
    obtain ⟨key, hkey, hmem⟩ := List.mem_flatMap.mp he
    obtain ⟨w, -, -, rfl⟩ := (mem_appended params key e).mp hmem
    simp only [decide_eq_true_eq]
    rintro rfl
    exact h hkey
  simp [List.filter_cons, hnone]

/-- Every method other than `logActivity` sends exactly one `action` entry,
its verb; `logActivity` sends a second one whenever its `action` argument is
neither `null` nor `undefined`. -/
theorem actionValues_queryOf (ua : String) (c : Call) :
    actionValues (queryOf ua c)
      = match c with
        | .logActivity _ a _ =>
          if a.present then ["logActivity", a.toStr] else ["logActivity"]
        | _ => [(requestOf ua c).1] := by
  cases c
  case logActivity studentId action classCode =>
    simp only [queryOf, requestOf, makeRequestQuery_eq, actionValues, Obj.keys, appended,
      Obj.get]
    cases h1 : studentId.present <;> cases h2 : action.present <;>
      cases h3 : (orDefault classCode (.str "")).present <;>
      simp [appended, Obj.get, h1, h2, h3]
  case getStudents schoolCode =>
    apply actionValues_makeRequestQuery
    simp only [requestOf]
    split <;> simp [Obj.keys, Obj.set]
  case getClasses teacherId =>
    apply actionValues_makeRequestQuery
    simp only [requestOf]
    split <;> simp [Obj.keys, Obj.set]
  case getActivity studentId limit =>
    apply actionValues_makeRequestQuery
    simp only [requestOf]
    split <;> simp [Obj.keys, Obj.set]
  all_goals
    apply actionValues_makeRequestQuery
    simp [requestOf, Obj.keys]

/-- C3 fails for `logActivity`: the call `logActivity("s1", "opened tab")`
sends two `action` entries, the verb and the activity label, while every
other listed method sends the single entry holding its verb (shown here for
`lockStudent`). -/
theorem logActivity_sends_two_action_entries :
    queryOf "" (.logActivity (.str "s1") (.str "opened tab") .undefined)
        = [("action", "logActivity"), ("studentId", "s1"), ("action", "opened tab"),
           ("classCode", "")]
      ∧ actionValues (queryOf "" (.logActivity (.str "s1") (.str "opened tab") .undefined))
        = ["logActivity", "opened tab"]
      ∧ actionValues (queryOf "" (.lockStudent (.str "s1"))) = ["lockStudent"] := by
  decide

/-! ## C4: local login -/

/-- C4: with a stored record, `loginSchool` resolves with that record when
the record's email is the submitted one and its role is `school`, and
rejects with `Invalid credentials` in every other case; with nothing stored
it always rejects with `Invalid credentials`.  The password plays no part.
`loginTeacher` is the same with role `teacher`. -/
theorem login_checks_stored_session (stored : Option Session) (email password : JSVal) :
    (∀ user, stored = some user →
        ((Session.field user "email" = email ∧ Session.field user "role" = .str "school") →
          loginSchool stored email password = .ok user)
        ∧ (¬ (Session.field user "email" = email ∧ Session.field user "role" = .str "school") →
          loginSchool stored email password = .error "Invalid credentials")
        ∧ ((Session.field user "email" = email ∧ Session.field user "role" = .str "teacher") →
          loginTeacher stored email password = .ok user)
        ∧ (¬ (Session.field user "email" = email
              ∧ Session.field user "role" = .str "teacher") →
          loginTeacher stored email password = .error "Invalid credentials"))
    ∧ (stored = none →
        loginSchool stored email password = .error "Invalid credentials"
        ∧ loginTeacher stored email password = .error "Invalid credentials")
    ∧ (∀ other : JSVal,
        loginSchool stored email other = loginSchool stored email password
        ∧ loginTeacher stored email other = loginTeacher stored email password) := by
  refine ⟨?_, ?_, ?_⟩
  · rintro user rfl
    refine ⟨?_, ?_, ?_, ?_⟩
    · intro hc
      simp [loginSchool, hc]
    · intro hc
      have hc' : ¬ (Session.field ((some user).getD []) "email" = email
          ∧ Session.field ((some user).getD []) "role" = .str "school") := hc
      simp only [loginSchool, if_neg hc']
    · intro hc
      simp [loginTeacher, hc]
    · intro hc
      have hc' : ¬ (Session.field ((some user).getD []) "email" = email
          ∧ Session.field ((some user).getD []) "role" = .str "teacher") := hc
      simp only [loginTeacher, if_neg hc']
  · rintro rfl
    constructor
    · simp [loginSchool, Session.field, Obj.get]
    · simp [loginTeacher, Session.field, Obj.get]
  · intro other
    exact ⟨rfl, rfl⟩

/-! ## C5: the online predicate -/

/-- C5, as stated, fails at `lastActive = 0`: with `now = 29999` the
difference is below 30000, yet the falsy timestamp makes the method answer
`false`. -/
theorem isStudentOnline_epoch_zero :
    (29999 : Int) - 0 < 30000
      ∧ isStudentOnline 29999
          (some { id := .str "s1", name := "Ada", lastActive := some 0, locked := .bool false })
        = false := by
  decide

/-- C5 (amended): for a student whose `lastActive` is a non-zero time value
within the range of `Date`, the method answers `true` exactly when
`now - lastActive < 30000`. -/
theorem isStudentOnline_iff (now t : Int) (s : Student) (hs : s.lastActive = some t)
    (h0 : t ≠ 0) (hr : t.natAbs ≤ 8640000000000000) :
    isStudentOnline now (some s) = true ↔ now - t < 30000 := by
  have hclip : dateGetTime t = some t := by
    unfold dateGetTime
    rw [if_neg (by omega)]
  simp [isStudentOnline, hs, h0, hclip]

/-- The boundary of C5 on a concrete student: online at 29999 ms. -/
theorem isStudentOnline_iff_witness :
    isStudentOnline 1700000029999
        (some { id := .str "s1", name := "Ada", lastActive := some 1700000000000,
                locked := .bool false })
      = true :=
  (isStudentOnline_iff 1700000029999 1700000000000 _ rfl (by decide) (by decide)).mpr
    (by decide)

/-! ## C6: starting a polling task twice -/

theorem registerHandle_of_idle (s : Sys) (key : String) (handle : Nat)
    (h : pollingActive s key = false) :
    registerHandle s.pollingIntervals key handle = Obj.set s.pollingIntervals key handle := by
  unfold registerHandle
  unfold pollingActive at h
  cases hg : Obj.get s.pollingIntervals key with
  | some v => simp
  | none =>
    rw [hg] at h
    have hk : key ≠ "__proto__" := by
      rintro rfl
      revert h
      decide
    simp [hk]

theorem startStudentPolling_idle (s : Sys) (studentId : JSVal)
    (h : pollingActive s studentId.toStr = false) :
    startStudentPolling s studentId
      = { pollingIntervals := Obj.set s.pollingIntervals studentId.toStr (s.issued + 1),
          issued := s.issued + 1,
          timers := s.timers ++ [(s.issued + 1, .studentPoll studentId, 5000)] } := by
  have hreg := registerHandle_of_idle s studentId.toStr (s.issued + 1) h
  simp only [startStudentPolling, h, setInterval]
  simp [hreg]

theorem startTeacherPolling_idle (s : Sys) (schoolCode : JSVal)
    (h : pollingActive s "teacher" = false) :
    startTeacherPolling s schoolCode
      = { pollingIntervals := Obj.set s.pollingIntervals "teacher" (s.issued + 1),
          issued := s.issued + 1,
          timers := s.timers ++ [(s.issued + 1, .teacherPoll schoolCode, 3000)] } := by
  have hreg := registerHandle_of_idle s "teacher" (s.issued + 1) h
  simp only [startTeacherPolling, h, setInterval]
  simp [hreg]

theorem startStudentPolling_running (s : Sys) (studentId : JSVal)
    (h : pollingActive s studentId.toStr = true) : startStudentPolling s studentId = s := by
  simp [startStudentPolling, h]

theorem startTeacherPolling_running (s : Sys) (schoolCode : JSVal)
    (h : pollingActive s "teacher" = true) : startTeacherPolling s schoolCode = s := by
  simp [startTeacherPolling, h]

theorem startStudentPolling_active (s : Sys) (studentId : JSVal) :
    pollingActive (startStudentPolling s studentId) studentId.toStr = true := by
  cases h : pollingActive s studentId.toStr with
  | true => rw [startStudentPolling_running s studentId h, h]
  | false =>
    rw [startStudentPolling_idle s studentId h]
    simp [pollingActive, Obj.get_set_self]

theorem startTeacherPolling_active (s : Sys) (schoolCode : JSVal) :
    pollingActive (startTeacherPolling s schoolCode) "teacher" = true := by
  cases h : pollingActive s "teacher" with
  | true => rw [startTeacherPolling_running s schoolCode h, h]
  | false =>
    rw [startTeacherPolling_idle s schoolCode h]
    simp [pollingActive, Obj.get_set_self]

/-- C6, as stated, fails for a key that names a property inherited from
`Object.prototype`: on a fresh client `startStudentPolling('constructor')`
finds `this.pollingIntervals['constructor']` truthy and returns at once, so
two calls create no timer and register nothing, where an ordinary id such as
`s1` gets its one timer. -/
theorem start_polling_inherited_key :
    startStudentPolling (startStudentPolling ⟨[], 0, []⟩ (.str "constructor"))
        (.str "constructor")
      = ⟨[], 0, []⟩
    ∧ startStudentPolling (startStudentPolling ⟨[], 0, []⟩ (.str "s1")) (.str "s1")
      = ⟨[("s1", 1)], 1, [(1, .studentPoll (.str "s1"), 5000)]⟩ := by
  decide

/-- C6 (amended): from every state, a second `startStudentPolling` with the
same id changes nothing: registry, handle counter and live timers are those
left by the first call.  When the key has no entry in the registry and does
not name a property inherited from `Object.prototype`, the two calls create
exactly one timer and register its handle under the key (an entry `0`, which
no timer ever gets, counts as no entry); when the key is registered with a
handle, or names an inherited property, they create none.
`startTeacherPolling` behaves the same under the key `teacher`, which names
no inherited property. -/
theorem start_polling_twice (s : Sys) (studentId schoolCode : JSVal) :
    (startStudentPolling (startStudentPolling s studentId) studentId
        = startStudentPolling s studentId
      ∧ (Obj.get s.pollingIntervals studentId.toStr = none →
          studentId.toStr ∉ objectPrototypeKeys →
          (startStudentPolling (startStudentPolling s studentId) studentId).timers
              = s.timers ++ [(s.issued + 1, .studentPoll studentId, 5000)]
            ∧ Obj.get
                (startStudentPolling (startStudentPolling s studentId) studentId).pollingIntervals
                studentId.toStr = some (s.issued + 1))
      ∧ (∀ handle, Obj.get s.pollingIntervals studentId.toStr = some handle → handle ≠ 0 →
          startStudentPolling (startStudentPolling s studentId) studentId = s)
      ∧ (Obj.get s.pollingIntervals studentId.toStr = none →
          studentId.toStr ∈ objectPrototypeKeys →
          startStudentPolling (startStudentPolling s studentId) studentId = s)
      ∧ (Obj.get s.pollingIntervals studentId.toStr = some 0 →
          (startStudentPolling (startStudentPolling s studentId) studentId).timers
            = s.timers ++ [(s.issued + 1, .studentPoll studentId, 5000)]))
    ∧ (startTeacherPolling (startTeacherPolling s schoolCode) schoolCode
        = startTeacherPolling s schoolCode
      ∧ (Obj.get s.pollingIntervals "teacher" = none →
          (startTeacherPolling (startTeacherPolling s schoolCode) schoolCode).timers
              = s.timers ++ [(s.issued + 1, .teacherPoll schoolCode, 3000)]
            ∧ Obj.get
                (startTeacherPolling (startTeacherPolling s schoolCode) schoolCode).pollingIntervals
                "teacher" = some (s.issued + 1))
      ∧ (∀ handle, Obj.get s.pollingIntervals "teacher" = some handle → handle ≠ 0 →
          startTeacherPolling (startTeacherPolling s schoolCode) schoolCode = s)
      ∧ (Obj.get s.pollingIntervals "teacher" = some 0 →
          (startTeacherPolling (startTeacherPolling s schoolCode) schoolCode).timers
            = s.timers ++ [(s.issued + 1, .teacherPoll schoolCode, 3000)])) := by
  have hS : startStudentPolling (startStudentPolling s studentId) studentId
      = startStudentPolling s studentId :=
    startStudentPolling_running _ studentId (startStudentPolling_active s studentId)
  have hT : startTeacherPolling (startTeacherPolling s schoolCode) schoolCode
      = startTeacherPolling s schoolCode :=
    startTeacherPolling_running _ schoolCode (startTeacherPolling_active s schoolCode)
  refine ⟨⟨hS, ?_, ?_, ?_, ?_⟩, ⟨hT, ?_, ?_, ?_⟩⟩
  · intro hnone hkey
    have hidle : pollingActive s studentId.toStr = false := by
      simp [pollingActive, hnone, hkey]
    rw [hS, startStudentPolling_idle s studentId hidle]
    exact ⟨rfl, Obj.get_set_self _ _ _⟩
  · intro handle hsome hne
    have hrun : pollingActive s studentId.toStr = true := by
      simp [pollingActive, hsome, hne]
    rw [hS, startStudentPolling_running s studentId hrun]
  · intro hnone hkey
    have hrun : pollingActive s studentId.toStr = true := by
      simp [pollingActive, hnone, hkey]
    rw [hS, startStudentPolling_running s studentId hrun]
  · intro hzero
    have hidle : pollingActive s studentId.toStr = false := by
      simp [pollingActive, hzero]
    rw [hS, startStudentPolling_idle s studentId hidle]
  · intro hnone
    have hidle : pollingActive s "teacher" = false := by
      simp only [pollingActive, hnone]
      decide
    rw [hT, startTeacherPolling_idle s schoolCode hidle]
    exact ⟨rfl, Obj.get_set_self _ _ _⟩
  · intro handle hsome hne
    have hrun : pollingActive s "teacher" = true := by
      simp [pollingActive, hsome, hne]
    rw [hT, startTeacherPolling_running s schoolCode hrun]
  · intro hzero
    have hidle : pollingActive s "teacher" = false := by
      simp [pollingActive, hzero]
    rw [hT, startTeacherPolling_idle s schoolCode hidle]

/-! ## C7: the message event of a learner tick -/

/-- The events of a tick that carry the name `classstacks:message`. -/
theorem studentTick_message_events (cache : Cache) (studentId : JSVal) (net : StudentTickNet)
    (messages : List Message) (u : Unit) (hA : net.activity = .ok u)
    (hM : net.messages = .ok ⟨some messages⟩) :
    (studentTick cache studentId net).2.filter (fun e => e.name = "classstacks:message")
      = match messages.head? with
        | some m => if m.read.truthy then [] else [Event.message m]
        | none => [] := by
  unfold studentTick
  simp only [hA, hM, getMessages]
  cases messages.head? with
  | none =>
    simp only
    split
    · simp
    · split
      · split <;> simp [Event.name]
      · simp
  | some m =>
    simp only
    cases hr : m.read.truthy
    · simp only [Bool.not_false, if_true]
      split
      · simp [Event.name]
      · split
        · split <;> simp [Event.name, List.filter_cons]
        · simp [Event.name]
    · simp only [Bool.not_true]
      split
      · simp
      · split
        · split <;> simp [Event.name]
        · simp

/-- C7: in a learner tick whose activity update and message fetch succeed,
a `classstacks:message` event is dispatched exactly when the fetched list
is non-empty and the read flag of its first entry is falsy; the event
carries that first entry and is the only one of its name.  When every
fetched message is read, no such event is dispatched. -/
theorem studentTick_message_iff (cache : Cache) (studentId : JSVal) (net : StudentTickNet)
    (messages : List Message) (u : Unit) (hA : net.activity = .ok u)
    (hM : net.messages = .ok ⟨some messages⟩) :
    (∀ e ∈ (studentTick cache studentId net).2, e.name = "classstacks:message" →
        ∃ m, e = Event.message m ∧ messages.head? = some m ∧ m.read.truthy = false)
    ∧ (∀ m, messages.head? = some m → m.read.truthy = false →
        (studentTick cache studentId net).2.filter (fun e => e.name = "classstacks:message")
          = [Event.message m])
    ∧ ((∀ m ∈ messages, m.read.truthy = true) →
        ∀ e ∈ (studentTick cache studentId net).2, e.name ≠ "classstacks:message") := by
  have key := studentTick_message_events cache studentId net messages u hA hM
  have hmem : ∀ e ∈ (studentTick cache studentId net).2, e.name = "classstacks:message" →
      ∃ m, e = Event.message m ∧ messages.head? = some m ∧ m.read.truthy = false := by
    intro e he hname
    have : e ∈ (studentTick cache studentId net).2.filter
        (fun e => e.name = "classstacks:message") := by
      simp [List.mem_filter, he, hname]
    rw [key] at this
    cases hh : messages.head? with
    | none => simp [hh] at this
    | some m =>
      cases hr : m.read.truthy
      · simp only [hh, hr] at this
        simp only [Bool.false_eq_true, if_false, List.mem_singleton] at this
        exact ⟨m, this, rfl, hr⟩
      · simp [hh, hr] at this
  refine ⟨hmem, ?_, ?_⟩
  · intro m hh hr
    rw [key, hh]
    simp [hr]
  · intro hall e he hname
    obtain ⟨m, -, hh, hr⟩ := hmem e he hname
    have := hall m (List.mem_of_mem_head? hh)
    rw [hr] at this
    cases this

/-- A tick with one unread message first: the event carries it. -/
theorem studentTick_message_iff_witness :
    (studentTick Cache.empty (.str "s1")
        { activity := .ok (), messages := .ok ⟨some [⟨"hello", "teacher", .bool false⟩]⟩,
          roster := .ok ⟨some []⟩ }).2.filter (fun e => e.name = "classstacks:message")
      = [Event.message ⟨"hello", "teacher", .bool false⟩] :=
  (studentTick_message_iff Cache.empty (.str "s1")
      { activity := .ok (), messages := .ok ⟨some [⟨"hello", "teacher", .bool false⟩]⟩,
        roster := .ok ⟨some []⟩ }
      [⟨"hello", "teacher", .bool false⟩] () rfl rfl).2.1 _ rfl rfl

/-! ## C10: device classification -/

theorem tails_any_isPrefixOf_iff (pat s : List Char) :
    (s.tails.any fun t => pat.isPrefixOf t) = true ↔ pat <:+: s := by
  rw [List.any_eq_true, List.infix_iff_prefix_suffix]
  constructor
  · rintro ⟨t, ht, hp⟩
    exact ⟨t, List.isPrefixOf_iff_prefix.mp hp, (List.mem_tails _ _).mp ht⟩
  · rintro ⟨t, hp, hs⟩
    exact ⟨t, (List.mem_tails _ _).mpr hs, List.isPrefixOf_iff_prefix.mpr hp⟩

theorem regexTestAny_iff (alts : List String) (s : String) :
    regexTestAny alts s = true ↔ ∃ a ∈ alts, a.toList <:+: s.toList := by
  unfold regexTestAny
  rw [List.any_eq_true]
  constructor
  · rintro ⟨a, ha, h⟩
    exact ⟨a, ha, (tails_any_isPrefixOf_iff _ _).mp h⟩
  · rintro ⟨a, ha, h⟩
    exact ⟨a, ha, (tails_any_isPrefixOf_iff _ _).mpr h⟩

/-- C10: `getDeviceInfo` answers `Mobile` when the agent string contains one
of Mobile, Android, iPhone, iPad, iPod; otherwise `Tablet` when it contains
Tablet; otherwise `Desktop`.  So a string containing iPad is `Mobile`, and
`Tablet` is the answer exactly for strings that contain Tablet and none of
the five mobile markers. -/
theorem getDeviceInfo_classifies (ua : String) :
    ((∃ a ∈ ["Mobile", "Android", "iPhone", "iPad", "iPod"], a.toList <:+: ua.toList) →
        getDeviceInfo ua = "Mobile")
    ∧ ((¬ ∃ a ∈ ["Mobile", "Android", "iPhone", "iPad", "iPod"], a.toList <:+: ua.toList) →
        "Tablet".toList <:+: ua.toList → getDeviceInfo ua = "Tablet")
    ∧ ((¬ ∃ a ∈ ["Mobile", "Android", "iPhone", "iPad", "iPod"], a.toList <:+: ua.toList) →
        ¬ "Tablet".toList <:+: ua.toList → getDeviceInfo ua = "Desktop")
    ∧ ("iPad".toList <:+: ua.toList →
        getDeviceInfo ua = "Mobile" ∧ getDeviceInfo ua ≠ "Tablet")
    ∧ (getDeviceInfo ua = "Tablet" ↔
        "Tablet".toList <:+: ua.toList
          ∧ ¬ ∃ a ∈ ["Mobile", "Android", "iPhone", "iPad", "iPod"],
              a.toList <:+: ua.toList) := by
  have hM := regexTestAny_iff ["Mobile", "Android", "iPhone", "iPad", "iPod"] ua
  have hT := regexTestAny_iff ["Tablet", "iPad"] ua
  have mobile : (∃ a ∈ ["Mobile", "Android", "iPhone", "iPad", "iPod"],
      a.toList <:+: ua.toList) → getDeviceInfo ua = "Mobile" := by
    intro h
    simp only [getDeviceInfo, hM.mpr h, if_true]
  have tablet : (¬ ∃ a ∈ ["Mobile", "Android", "iPhone", "iPad", "iPod"],
      a.toList <:+: ua.toList) → "Tablet".toList <:+: ua.toList →
      getDeviceInfo ua = "Tablet" := by
    intro h ht
    have h1 : regexTestAny ["Mobile", "Android", "iPhone", "iPad", "iPod"] ua = false := by
      rw [Bool.eq_false_iff]
      exact fun hc => h (hM.mp hc)
    have h2 : regexTestAny ["Tablet", "iPad"] ua = true :=
      hT.mpr ⟨"Tablet", by simp, ht⟩
    simp [getDeviceInfo, h1, h2]
  have desktop : (¬ ∃ a ∈ ["Mobile", "Android", "iPhone", "iPad", "iPod"],
      a.toList <:+: ua.toList) → ¬ "Tablet".toList <:+: ua.toList →
      getDeviceInfo ua = "Desktop" := by
    intro h ht
    have h1 : regexTestAny ["Mobile", "Android", "iPhone", "iPad", "iPod"] ua = false := by
      rw [Bool.eq_false_iff]
      exact fun hc => h (hM.mp hc)
    have h2 : regexTestAny ["Tablet", "iPad"] ua = false := by
      rw [Bool.eq_false_iff]
      intro hc
      obtain ⟨a, ha, hin⟩ := hT.mp hc
      simp only [List.mem_cons, List.mem_singleton, List.not_mem_nil, or_false] at ha
      rcases ha with rfl | rfl
      · exact ht hin
      · exact h ⟨"iPad", by simp, hin⟩
    simp [getDeviceInfo, h1, h2]
  refine ⟨mobile, tablet, desktop, ?_, ?_⟩
  · intro h
    have := mobile ⟨"iPad", by simp, h⟩
    exact ⟨this, by rw [this]; decide⟩
  · constructor
    · intro h
      by_cases hm : ∃ a ∈ ["Mobile", "Android", "iPhone", "iPad", "iPod"],
          a.toList <:+: ua.toList
      · rw [mobile hm] at h
        exact absurd h (by decide)
      · by_cases ht : "Tablet".toList <:+: ua.toList
        · exact ⟨ht, hm⟩
        · rw [desktop hm ht] at h
          exact absurd h (by decide)
    · rintro ⟨ht, hm⟩
      exact tablet hm ht

/-! ## C8: the parsed path of `extractDomain` -/

theorem replaceFirst_leading (pat rest : List Char) (h : pat ≠ []) :
    replaceFirst pat [] (pat ++ rest) = rest := by
  cases pat with
  | nil => exact absurd rfl h
  | cons p ps =>
    have hp : (p :: ps).isPrefixOf (p :: (ps ++ rest)) = true :=
      List.isPrefixOf_iff_prefix.mpr (List.prefix_append (p :: ps) rest)
    show replaceFirst (p :: ps) [] (p :: (ps ++ rest)) = rest
    rw [replaceFirst, if_pos hp, List.nil_append]
    exact List.drop_left (p :: ps) rest

theorem replaceFirst_no_occurrence (pat rep s : List Char) (h : ¬ pat <:+: s) :
    replaceFirst pat rep s = s := by
  induction s with
  | nil =>
    have : pat ≠ [] := by
      rintro rfl
      exact h List.nil_infix
    simp [replaceFirst, this]
  | cons c cs ih =>
    have hp : pat.isPrefixOf (c :: cs) = false := by
      rw [Bool.eq_false_iff]
      intro hc
      exact h (List.isPrefixOf_iff_prefix.mp hc).isInfix
    have hcs : ¬ pat <:+: cs := fun hc => h (hc.trans (List.suffix_cons c cs).isInfix)
    simp [replaceFirst, hp, ih hcs]

/-- The part of C8 the code meets: a host that starts with `www.` loses
that prefix, and a host in which `www.` does not occur is returned as is. -/
theorem extractDomain_parsed (hostnameOf : String → Option String) (url host : String)
    (h : hostnameOf url = some host) :
    (∀ rest, host.toList = "www.".toList ++ rest →
        (extractDomain hostnameOf url).toList = rest)
    ∧ (¬ "www.".toList <:+: host.toList → extractDomain hostnameOf url = host) := by
  constructor
  · intro rest hrest
    simp only [extractDomain, h, hrest]
    exact replaceFirst_leading _ rest (by decide)
  · intro hno
    simp only [extractDomain, h, replaceFirst_no_occurrence _ _ _ hno]
    rfl

/-- C8 fails for a host that has `www.` past its start: the host
`mywww.example.com` does not start with `www.`, yet the method returns
`myexample.com` instead of the host; the host of the spec's example,
`www.youtube.com`, gives `youtube.com`. -/
theorem extractDomain_inner_www :
    extractDomain (fun _ => some "mywww.example.com") "https://mywww.example.com/"
        = "myexample.com"
      ∧ ¬ "www.".toList <+: "mywww.example.com".toList
      ∧ extractDomain (fun _ => some "www.youtube.com") "https://www.youtube.com/watch?v=x"
        = "youtube.com" := by
  decide

/-! ## C9: the fallback path of `extractDomain` -/

theorem ciEq_append (p q a b : List Char) (h1 : ciEq p a = true) (h2 : ciEq q b = true) :
    ciEq (p ++ q) (a ++ b) = true := by
  induction p generalizing a with
  | nil =>
    cases a with
    | nil => simpa using h2
    | cons c cs => simp [ciEq] at h1
  | cons x xs ih =>
    cases a with
    | nil => simp [ciEq] at h1
    | cons c cs =>
      simp only [ciEq, Bool.and_eq_true] at h1
      simp only [List.cons_append, ciEq, Bool.and_eq_true]
      exact ⟨h1.1, ih cs h1.2⟩

theorem lit_some {α : Type} (p : List Char) (k : List Char → Option α) (s : List Char) (r : α)
    (h : lit p k s = some r) :
    ∃ pre rest, s = pre ++ rest ∧ ciEq p pre = true ∧ k rest = some r := by
  induction p generalizing s with
  | nil => exact ⟨[], s, rfl, rfl, by simpa [lit] using h⟩
  | cons x xs ih =>
    cases s with
    | nil => simp [lit] at h
    | cons c cs =>
      simp only [lit] at h
      split at h
      · rename_i hc
        obtain ⟨pre, rest, hs, hci, hk⟩ := ih cs h
        exact ⟨c :: pre, rest, by rw [hs]; rfl, by simp [ciEq, hc, hci], hk⟩
      · cases h

theorem opt_some {α : Type} (item : (List Char → Option α) → List Char → Option α)
    (k : List Char → Option α) (s : List Char) (r : α) (h : opt item k s = some r) :
    item k s = some r ∨ k s = some r := by
  unfold opt at h
  cases hi : item k s with
  | none =>
    rw [hi] at h
    exact Or.inr (by simpa using h)
  | some x =>
    rw [hi] at h
    exact Or.inl (by simpa using h)

theorem opt_none {α : Type} (item : (List Char → Option α) → List Char → Option α)
    (k : List Char → Option α) (s : List Char) (h : opt item k s = none) : k s = none := by
  unfold opt at h
  cases hi : item k s with
  | none =>
    rw [hi] at h
    simpa using h
  | some x =>
    rw [hi] at h
    simp at h

theorem takeWhile_run (s : List Char) :
    ∃ rest, s = s.takeWhile (fun c => c != '/') ++ rest
      ∧ (rest = [] ∨ rest.head? = some '/')
      ∧ '/' ∉ s.takeWhile (fun c => c != '/') := by
  induction s with
  | nil => exact ⟨[], rfl, Or.inl rfl, by simp⟩
  | cons c cs ih =>
    by_cases hc : c = '/'
    · subst hc
      exact ⟨'/' :: cs, by simp [List.takeWhile], Or.inr rfl, by simp [List.takeWhile]⟩
    · obtain ⟨rest, hs, hrest, hno⟩ := ih
      have hb : (c != '/') = true := by simpa using hc
      refine ⟨rest, ?_, hrest, ?_⟩
      · rw [List.takeWhile_cons, if_pos hb, List.cons_append, ← hs]
      · rw [List.takeWhile_cons, if_pos hb]
        intro hmem
        rcases List.mem_cons.mp hmem with h | h
        · exact hc h.symm
        · exact hno h

theorem hostRun_some (s r : List Char) (h : hostRun s = some r) :
    r ≠ [] ∧ '/' ∉ r ∧ ∃ rest, s = r ++ rest ∧ (rest = [] ∨ rest.head? = some '/') := by
  obtain ⟨rest, hs, hrest, hno⟩ := takeWhile_run s
  unfold hostRun at h
  split at h
  · cases h
  · rename_i c cs heq
    cases h
    rw [heq] at hs hno
    exact ⟨by simp, hno, rest, hs, hrest⟩

theorem hostRun_none (c : Char) (cs : List Char) (h : hostRun (c :: cs) = none) : c = '/' := by
  by_contra hc
  have hb : (c != '/') = true := by simpa using hc
  simp [hostRun, List.takeWhile_cons, hc] at h

/-- The tail of the pattern, `(?:www\.)?([^\/]+)`. -/
theorem wwwRun_some (s r : List Char) (h : opt (lit "www.".toList) hostRun s = some r) :
    r ≠ [] ∧ '/' ∉ r ∧ ∃ www rest, s = www ++ r ++ rest
      ∧ (www = [] ∨ ciEq "www.".toList www = true)
      ∧ (rest = [] ∨ rest.head? = some '/') := by
  rcases opt_some _ _ _ _ h with h1 | h1
  · obtain ⟨pre, s1, hs, hci, hk⟩ := lit_some _ _ _ _ h1
    obtain ⟨hne, hno, rest, hs1, hrest⟩ := hostRun_some s1 r hk
    exact ⟨hne, hno, pre, rest, by rw [hs, hs1, List.append_assoc], Or.inr hci, hrest⟩
  · obtain ⟨hne, hno, rest, hs1, hrest⟩ := hostRun_some s r h1
    exact ⟨hne, hno, [], rest, by simpa using hs1, Or.inl rfl, hrest⟩

theorem domainRegexAt_some (s r : List Char) (h : domainRegexAt s = some r) :
    r ≠ [] ∧ '/' ∉ r ∧ ∃ scheme www rest, s = scheme ++ www ++ r ++ rest
      ∧ (scheme = [] ∨ ciEq "http://".toList scheme = true
          ∨ ciEq "https://".toList scheme = true)
      ∧ (www = [] ∨ ciEq "www.".toList www = true)
      ∧ (rest = [] ∨ rest.head? = some '/') := by
  unfold domainRegexAt at h
  rcases opt_some _ _ _ _ h with h1 | h1
  · obtain ⟨pre, s1, hs, hci, hk⟩ := lit_some _ _ _ _ h1
    rcases opt_some _ _ _ _ hk with h2 | h2
    · obtain ⟨pre2, s2, hs2, hci2, hk2⟩ := lit_some _ _ _ _ h2
      obtain ⟨pre3, s3, hs3, hci3, hk3⟩ := lit_some _ _ _ _ hk2
      obtain ⟨hne, hno, www, rest, hs4, hwww, hrest⟩ := wwwRun_some s3 r hk3
      refine ⟨hne, hno, pre ++ (pre2 ++ pre3), www, rest, ?_, Or.inr (Or.inr ?_), hwww, hrest⟩
      · rw [hs, hs2, hs3, hs4]
        simp [List.append_assoc]
      · exact ciEq_append "http".toList "s://".toList _ _ hci
          (ciEq_append "s".toList "://".toList _ _ hci2 hci3)
    · obtain ⟨pre3, s3, hs3, hci3, hk3⟩ := lit_some _ _ _ _ h2
      obtain ⟨hne, hno, www, rest, hs4, hwww, hrest⟩ := wwwRun_some s3 r hk3
      refine ⟨hne, hno, pre ++ pre3, www, rest, ?_, Or.inr (Or.inl ?_), hwww, hrest⟩
      · rw [hs, hs3, hs4]
        simp [List.append_assoc]
      · exact ciEq_append "http".toList "://".toList _ _ hci hci3
  · obtain ⟨hne, hno, www, rest, hs4, hwww, hrest⟩ := wwwRun_some s r h1
    exact ⟨hne, hno, [], www, rest, by simpa using hs4, Or.inl rfl, hwww, hrest⟩

theorem domainRegexAt_none (c : Char) (cs : List Char) (h : domainRegexAt (c :: cs) = none) :
    c = '/' := by
  unfold domainRegexAt at h
  exact hostRun_none c cs (opt_none _ _ _ (opt_none _ _ _ h))

theorem domainRegexExec_some (s r : List Char) (h : domainRegexExec s = some r) :
    ∃ slashes s', s = slashes ++ s' ∧ (∀ c ∈ slashes, c = '/') ∧ domainRegexAt s' = some r := by
  induction s with
  | nil => exact ⟨[], [], rfl, by simp, by simpa [domainRegexExec] using h⟩
  | cons c cs ih =>
    unfold domainRegexExec at h
    cases hat : domainRegexAt (c :: cs) with
    | some capture =>
      rw [hat] at h
      exact ⟨[], c :: cs, rfl, by simp, by rw [hat]; exact h⟩
    | none =>
      rw [hat] at h
      obtain ⟨slashes, s', hs, hall, hs'⟩ := ih h
      refine ⟨c :: slashes, s', by rw [hs]; rfl, ?_, hs'⟩
      intro x hx
      rcases List.mem_cons.mp hx with rfl | hx
      · exact domainRegexAt_none _ cs hat
      · exact hall x hx

theorem domainRegexExec_none (s : List Char) (h : domainRegexExec s = none) :
    ∀ c ∈ s, c = '/' := by
  induction s with
  | nil => simp
  | cons c cs ih =>
    unfold domainRegexExec at h
    cases hat : domainRegexAt (c :: cs) with
    | some capture =>
      rw [hat] at h
      cases h
    | none =>
      rw [hat] at h
      intro x hx
      rcases List.mem_cons.mp hx with rfl | hx
      · exact domainRegexAt_none _ cs hat
      · exact ih h x hx

theorem lit_append {α : Type} (p pre x : List Char) (k : List Char → Option α)
    (h : ciEq p pre = true) : lit p k (pre ++ x) = k x := by
  induction p generalizing pre with
  | nil =>
    cases pre with
    | nil => rfl
    | cons c cs => simp [ciEq] at h
  | cons a as ih =>
    cases pre with
    | nil => simp [ciEq] at h
    | cons c cs =>
      simp only [ciEq, Bool.and_eq_true] at h
      simp only [List.cons_append, lit, h.1, if_true]
      exact ih cs h.2

theorem lit_head_mismatch {α : Type} (a c : Char) (as cs : List Char)
    (k : List Char → Option α) (h : ciChar a c = false) : lit (a :: as) k (c :: cs) = none := by
  simp [lit, h]

theorem ciEq_split (p q s : List Char) (h : ciEq (p ++ q) s = true) :
    ∃ a b, s = a ++ b ∧ ciEq p a = true ∧ ciEq q b = true := by
  induction p generalizing s with
  | nil => exact ⟨[], s, rfl, rfl, by simpa using h⟩
  | cons x xs ih =>
    cases s with
    | nil => simp [ciEq] at h
    | cons c cs =>
      simp only [List.cons_append, ciEq, Bool.and_eq_true] at h
      obtain ⟨a, b, hs, ha, hb⟩ := ih cs h.2
      exact ⟨c :: a, b, by rw [hs]; rfl, by simp [ciEq, h.1, ha], hb⟩

theorem ciEq_head (a : Char) (as s : List Char) (h : ciEq (a :: as) s = true) :
    ∃ c cs, s = c :: cs ∧ ciChar a c = true := by
  cases s with
  | nil => simp [ciEq] at h
  | cons c cs =>
    simp only [ciEq, Bool.and_eq_true] at h
    exact ⟨c, cs, rfl, h.1⟩

theorem ciEq_no_slash (p s : List Char) (h : ciEq p s = true)
    (hp : ∀ a ∈ p, ciChar a '/' = false) : '/' ∉ s := by
  induction p generalizing s with
  | nil =>
    cases s with
    | nil => simp
    | cons c cs => simp [ciEq] at h
  | cons a as ih =>
    cases s with
    | nil => simp
    | cons c cs =>
      simp only [ciEq, Bool.and_eq_true] at h
      intro hmem
      rcases List.mem_cons.mp hmem with hc | hc
      · have := hp a (List.mem_cons_self _ _)
        subst hc
        rw [h.1] at this
        cases this
      · exact ih cs h.2 (fun x hx => hp x (List.mem_cons_of_mem _ hx)) hc

theorem www_no_slash (w : List Char) (h : isWww w = true) : '/' ∉ w :=
  ciEq_no_slash _ w h (by decide)

theorem www_head (w : List Char) (h : isWww w = true) :
    ∃ c cs, w = c :: cs ∧ ciChar 'w' c = true :=
  ciEq_head 'w' "ww.".toList w h

theorem takeWhile_of_maximal (r rest : List Char) (h : MaximalRun r rest) :
    (r ++ rest).takeWhile (fun c => c != '/') = r := by
  obtain ⟨-, hno, hrest⟩ := h
  induction r with
  | nil =>
    rcases hrest with rfl | hh
    · rfl
    · cases rest with
      | nil => rfl
      | cons c cs =>
        simp only [List.head?_cons, Option.some.injEq] at hh
        subst hh
        simp [List.takeWhile]
  | cons c cs ih =>
    have hc : c ≠ '/' := fun hc => hno (hc ▸ List.mem_cons_self _ _)
    have hb : (c != '/') = true := by simpa using hc
    rw [List.cons_append, List.takeWhile_cons, if_pos hb,
      ih (fun hm => hno (List.mem_cons_of_mem _ hm))]

theorem hostRun_of_maximal (r rest : List Char) (h : MaximalRun r rest) :
    hostRun (r ++ rest) = some r := by
  unfold hostRun
  rw [takeWhile_of_maximal r rest h]
  obtain ⟨hne, -, -⟩ := h
  cases r with
  | nil => exact absurd rfl hne
  | cons c cs => rfl

theorem hostRun_at_boundary (rest : List Char) (h : rest = [] ∨ rest.head? = some '/') :
    hostRun rest = none := by
  rcases h with rfl | hh
  · rfl
  · cases rest with
    | nil => rfl
    | cons c cs =>
      simp only [List.head?_cons, Option.some.injEq] at hh
      subst hh
      simp [hostRun, List.takeWhile]

/-- The scheme item `(?:https?:\/\/)` consumes a scheme and hands over to
the rest of the pattern. -/
theorem schemeItem_append {α : Type} (k : List Char → Option α) (scheme x : List Char)
    (h : isScheme scheme = true) :
    lit "http".toList (opt (lit "s".toList) (lit "://".toList k)) (scheme ++ x) = k x := by
  unfold isScheme at h
  rcases Bool.or_eq_true _ _ |>.mp h with h1 | h1
  · obtain ⟨a, c, hs, ha, hc⟩ := ciEq_split "http".toList "://".toList scheme h1
    obtain ⟨c0, cs, hc0, hcc⟩ := ciEq_head ':' "//".toList c hc
    have hmis : ciChar 's' c0 = false := by
      have : c0 = ':' := by
        revert hcc
        simp [ciChar]
      subst this
      decide
    rw [hs, List.append_assoc, lit_append _ a _ _ ha]
    unfold opt
    have hnone : lit "s".toList (lit "://".toList k) (c ++ x) = none := by
      rw [hc0]
      exact lit_head_mismatch 's' c0 [] _ _ hmis
    rw [hnone]
    simp only [Option.orElse]
    exact lit_append _ c x k hc
  · obtain ⟨a, bc, hs, ha, hbc⟩ := ciEq_split "http".toList "s://".toList scheme h1
    obtain ⟨b, c, hs2, hb, hc⟩ := ciEq_split "s".toList "://".toList bc hbc
    rw [hs, hs2, List.append_assoc, lit_append _ a _ _ ha]
    unfold opt
    rw [List.append_assoc, lit_append _ b _ _ hb, lit_append _ c x k hc]
    cases hk : k x with
    | some r => rfl
    | none =>
      simp only [Option.orElse]
      obtain ⟨b0, bs, hb0, hbb⟩ := ciEq_head 's' [] b hb
      have hmis : ciChar ':' b0 = false := by
        have : b0 = 's' ∨ b0 = 'S' := by
          revert hbb
          simp [ciChar]
        rcases this with rfl | rfl <;> decide
      rw [hb0]
      exact lit_head_mismatch ':' b0 "//".toList _ _ hmis

theorem domainRegexAt_eq (s : List Char) :
    domainRegexAt s
      = (lit "http".toList
            (opt (lit "s".toList) (lit "://".toList (opt (lit "www.".toList) hostRun))) s).orElse
          fun _ => opt (lit "www.".toList) hostRun s :=
  rfl

theorem wwwRun_eq (s : List Char) :
    opt (lit "www.".toList) hostRun s
      = (lit "www.".toList hostRun s).orElse fun _ => hostRun s :=
  rfl

theorem wwwRun_www (www r rest : List Char) (hw : isWww www = true) (hr : MaximalRun r rest) :
    opt (lit "www.".toList) hostRun (www ++ (r ++ rest)) = some r := by
  rw [wwwRun_eq, lit_append _ www _ _ hw, hostRun_of_maximal r rest hr]
  rfl

theorem wwwRun_head (x r : List Char) (h : opt (lit "www.".toList) hostRun x = some r) :
    ∃ c cs, x = c :: cs ∧ c ≠ '/' := by
  obtain ⟨hne, hno, www, rest, hx, hwww, -⟩ := wwwRun_some x r h
  rcases hwww with rfl | hw
  · cases r with
    | nil => exact absurd rfl hne
    | cons c cs =>
      exact ⟨c, cs ++ rest, by simpa using hx, fun hc => hno (hc ▸ List.mem_cons_self _ _)⟩
  · obtain ⟨c, cs, rfl, -⟩ := www_head www hw
    refine ⟨c, cs ++ r ++ rest, by simpa using hx, fun hc => ?_⟩
    exact www_no_slash (c :: cs) hw (hc ▸ List.mem_cons_self _ _)

theorem wwwRun_plain (r rest : List Char) (hr : MaximalRun r rest)
    (hnw : ∀ w r', r = w ++ r' → isWww w = true → r' = []) :
    opt (lit "www.".toList) hostRun (r ++ rest) = some r := by
  rw [wwwRun_eq]
  cases hl : lit "www.".toList hostRun (r ++ rest) with
  | none =>
    rw [hostRun_of_maximal r rest hr]
    rfl
  | some r2 =>
    exfalso
    obtain ⟨w, x, hsplit, hw, hx⟩ := lit_some _ _ _ _ hl
    have hbound : hostRun rest = none := hostRun_at_boundary rest hr.2.2
    rcases List.append_eq_append_iff.mp hsplit with ⟨a, hwa, hrest⟩ | ⟨c, hrc, hxc⟩
    · cases a with
      | nil =>
        have hrw : r = w ++ [] := by simpa using hwa.symm
        have hxr : x = rest := by simpa using hrest.symm
        rw [hxr, hbound] at hx
        cases hx
      | cons a0 as =>
        have hhead : rest.head? = some '/' := by
          rcases hr.2.2 with hnil | hh
          · rw [hnil] at hrest
            cases hrest
          · exact hh
        rw [hrest] at hhead
        simp only [List.cons_append, List.head?_cons, Option.some.injEq] at hhead
        subst hhead
        exact www_no_slash w hw (by rw [hwa]; simp)
    · have hc : c = [] := hnw w c hrc hw
      subst hc
      have hxr : x = rest := by simpa using hxc
      rw [hxr, hbound] at hx
      cases hx

theorem domainRegexAt_scheme_www (scheme www r rest : List Char) (hs : isScheme scheme = true)
    (hw : isWww www = true) (hr : MaximalRun r rest) :
    domainRegexAt (scheme ++ (www ++ (r ++ rest))) = some r := by
  rw [domainRegexAt_eq, schemeItem_append _ scheme _ hs, wwwRun_www www r rest hw hr]
  rfl

theorem domainRegexAt_www (www r rest : List Char) (hw : isWww www = true)
    (hr : MaximalRun r rest) : domainRegexAt (www ++ (r ++ rest)) = some r := by
  rw [domainRegexAt_eq, wwwRun_www www r rest hw hr]
  obtain ⟨c, cs, rfl, hc⟩ := www_head www hw
  have hmis : ciChar 'h' c = false := by
    have : c = 'w' ∨ c = 'W' := by
      revert hc
      simp [ciChar]
    rcases this with rfl | rfl <;> decide
  have hnone : lit "http".toList
      (opt (lit "s".toList) (lit "://".toList (opt (lit "www.".toList) hostRun)))
      (c :: cs ++ (r ++ rest)) = none :=
    lit_head_mismatch 'h' c "ttp".toList _ _ hmis
  rw [hnone]
  rfl

theorem domainRegexAt_scheme (scheme r rest : List Char) (hs : isScheme scheme = true)
    (hr : MaximalRun r rest) (hnw : ∀ w r', r = w ++ r' → isWww w = true → r' = []) :
    domainRegexAt (scheme ++ (r ++ rest)) = some r := by
  rw [domainRegexAt_eq, schemeItem_append _ scheme _ hs, wwwRun_plain r rest hr hnw]
  rfl

theorem domainRegexAt_plain (r rest : List Char) (hr : MaximalRun r rest)
    (hnw : ∀ w r', r = w ++ r' → isWww w = true → r' = [])
    (hns : ∀ scheme x, r ++ rest = scheme ++ x → isScheme scheme = true →
      x = [] ∨ x.head? = some '/') :
    domainRegexAt (r ++ rest) = some r := by
  rw [domainRegexAt_eq, wwwRun_plain r rest hr hnw]
  cases hitem : lit "http".toList
      (opt (lit "s".toList) (lit "://".toList (opt (lit "www.".toList) hostRun))) (r ++ rest) with
  | none => rfl
  | some r2 =>
    exfalso
    obtain ⟨a, s1, hs1, ha, hk⟩ := lit_some _ _ _ _ hitem
    have finish : ∀ scheme x, r ++ rest = scheme ++ x → isScheme scheme = true →
        opt (lit "www.".toList) hostRun x = some r2 → False := by
      intro scheme x hsplit hsch hx
      obtain ⟨c, cs, rfl, hc⟩ := wwwRun_head x r2 hx
      rcases hns scheme (c :: cs) hsplit hsch with hnil | hh
      · cases hnil
      · simp only [List.head?_cons, Option.some.injEq] at hh
        exact hc hh
    rcases opt_some _ _ _ _ hk with h2 | h2
    · obtain ⟨b, s2, hs2, hb, hk2⟩ := lit_some _ _ _ _ h2
      obtain ⟨c, x, hs3, hc, hk3⟩ := lit_some _ _ _ _ hk2
      refine finish (a ++ (b ++ c)) x ?_ ?_ hk3
      · rw [hs1, hs2, hs3]
        simp [List.append_assoc]
      · unfold isScheme
        rw [Bool.or_eq_true]
        exact Or.inr (ciEq_append "http".toList "s://".toList _ _ ha
          (ciEq_append "s".toList "://".toList _ _ hb hc))
    · obtain ⟨c, x, hs3, hc, hk3⟩ := lit_some _ _ _ _ h2
      refine finish (a ++ c) x ?_ ?_ hk3
      · rw [hs1, hs3]
        simp [List.append_assoc]
      · unfold isScheme
        rw [Bool.or_eq_true]
        exact Or.inl (ciEq_append "http".toList "://".toList _ _ ha hc)

theorem domainRegexExec_of_at (s r : List Char) (h : domainRegexAt s = some r) :
    domainRegexExec s = some r := by
  cases s with
  | nil => exact h
  | cons c cs =>
    unfold domainRegexExec
    rw [h]

theorem domainRegexAt_slash (cs : List Char) : domainRegexAt ('/' :: cs) = none := by
  rw [domainRegexAt_eq, wwwRun_eq]
  have h1 : lit "http".toList
      (opt (lit "s".toList) (lit "://".toList (opt (lit "www.".toList) hostRun)))
      ('/' :: cs) = none :=
    lit_head_mismatch 'h' '/' "ttp".toList _ _ (by decide)
  have h2 : lit "www.".toList hostRun ('/' :: cs) = none :=
    lit_head_mismatch 'w' '/' "ww.".toList _ _ (by decide)
  have h3 : hostRun ('/' :: cs) = none := hostRun_at_boundary _ (Or.inr rfl)
  rw [h1, h2, h3]
  rfl

theorem domainRegexExec_skip (slashes s r : List Char) (hall : ∀ c ∈ slashes, c = '/')
    (h : domainRegexAt s = some r) : domainRegexExec (slashes ++ s) = some r := by
  induction slashes with
  | nil => exact domainRegexExec_of_at s r h
  | cons c cs ih =>
    have hc : c = '/' := hall c (List.mem_cons_self _ _)
    subst hc
    rw [List.cons_append]
    unfold domainRegexExec
    rw [domainRegexAt_slash]
    exact ih (fun x hx => hall x (List.mem_cons_of_mem _ hx))

theorem extractDomain_of_exec (hostnameOf : String → Option String) (url : String)
    (r : List Char) (h : hostnameOf url = none) (hex : domainRegexExec url.toList = some r) :
    extractDomain hostnameOf url = String.mk r := by
  simp only [extractDomain, h, hex]

/-- C9: when the host parser rejects the input, `extractDomain` still
returns a string.  An input made of `/` only (or empty) is returned as is.
Otherwise the result is a non-empty run free of `/`, placed in the input
after leading slashes, an optional `http://` or `https://` and an optional
`www.` (letters in either case), and ending at the next `/` or at the end
of the input.  The prefixes are stripped whenever they are there: after
the leading slashes, a scheme followed by `www.` and a run gives that run;
`www.` followed by a run gives that run; a scheme followed by a run that
does not itself begin with `www.` and a further character gives that run;
and a run that begins with none of these is returned itself.  The input
`not a url` is returned whole. -/
theorem extractDomain_fallback (hostnameOf : String → Option String) (url : String)
    (h : hostnameOf url = none) :
    ((∀ c ∈ url.toList, c = '/') → extractDomain hostnameOf url = url)
    ∧ ((∃ c ∈ url.toList, c ≠ '/') →
        (extractDomain hostnameOf url).toList ≠ []
        ∧ '/' ∉ (extractDomain hostnameOf url).toList
        ∧ ∃ slashes scheme www rest,
            url.toList
              = slashes ++ scheme ++ www ++ (extractDomain hostnameOf url).toList ++ rest
            ∧ (∀ c ∈ slashes, c = '/')
            ∧ (scheme = [] ∨ ciEq "http://".toList scheme = true
                ∨ ciEq "https://".toList scheme = true)
            ∧ (www = [] ∨ ciEq "www.".toList www = true)
            ∧ (rest = [] ∨ rest.head? = some '/'))
    ∧ (∀ slashes scheme www r rest, url.toList = slashes ++ scheme ++ www ++ r ++ rest →
        (∀ c ∈ slashes, c = '/') → isScheme scheme = true → isWww www = true →
        MaximalRun r rest → extractDomain hostnameOf url = String.mk r)
    ∧ (∀ slashes www r rest, url.toList = slashes ++ www ++ r ++ rest →
        (∀ c ∈ slashes, c = '/') → isWww www = true →
        MaximalRun r rest → extractDomain hostnameOf url = String.mk r)
    ∧ (∀ slashes scheme r rest, url.toList = slashes ++ scheme ++ r ++ rest →
        (∀ c ∈ slashes, c = '/') → isScheme scheme = true → MaximalRun r rest →
        (∀ w r', r = w ++ r' → isWww w = true → r' = []) →
        extractDomain hostnameOf url = String.mk r)
    ∧ (∀ slashes r rest, url.toList = slashes ++ r ++ rest →
        (∀ c ∈ slashes, c = '/') → MaximalRun r rest →
        (∀ w r', r = w ++ r' → isWww w = true → r' = []) →
        (∀ scheme x, r ++ rest = scheme ++ x → isScheme scheme = true →
          x = [] ∨ x.head? = some '/') →
        extractDomain hostnameOf url = String.mk r)
    ∧ (url = "not a url" → extractDomain hostnameOf url = "not a url") := by
  refine ⟨?_, ?_, ?_, ?_, ?_, ?_, ?_⟩
  · intro hall
    unfold extractDomain
    rw [h]
    cases hex : domainRegexExec url.toList with
    | none => rfl
    | some r =>
      exfalso
      obtain ⟨slashes, s', hs, -, hat⟩ := domainRegexExec_some _ _ hex
      obtain ⟨hne, hno, scheme, www, rest, hs', -⟩ := domainRegexAt_some _ _ hat
      cases r with
      | nil => exact hne rfl
      | cons x xs =>
        have hx : x ∈ url.toList := by
          rw [hs, hs']
          simp
        have : x = '/' := hall x hx
        subst this
        exact hno (List.mem_cons_self _ _)
  · rintro ⟨c, hc, hne⟩
    unfold extractDomain
    rw [h]
    cases hex : domainRegexExec url.toList with
    | none => exact absurd (domainRegexExec_none _ hex c hc) hne
    | some r =>
      obtain ⟨slashes, s', hs, hall, hat⟩ := domainRegexExec_some _ _ hex
      obtain ⟨hne', hno, scheme, www, rest, hs', hscheme, hwww, hrest⟩ :=
        domainRegexAt_some _ _ hat
      refine ⟨hne', hno, slashes, scheme, www, rest, ?_, hall, hscheme, hwww, hrest⟩
      show url.toList = slashes ++ scheme ++ www ++ r ++ rest
      rw [hs, hs']
      simp [List.append_assoc]
  · intro slashes scheme www r rest hurl hall hs hw hr
    apply extractDomain_of_exec hostnameOf url r h
    rw [hurl]
    simp only [List.append_assoc]
    exact domainRegexExec_skip slashes _ r hall (domainRegexAt_scheme_www scheme www r rest hs hw hr)
  · intro slashes www r rest hurl hall hw hr
    apply extractDomain_of_exec hostnameOf url r h
    rw [hurl]
    simp only [List.append_assoc]
    exact domainRegexExec_skip slashes _ r hall (domainRegexAt_www www r rest hw hr)
  · intro slashes scheme r rest hurl hall hs hr hnw
    apply extractDomain_of_exec hostnameOf url r h
    rw [hurl]
    simp only [List.append_assoc]
    exact domainRegexExec_skip slashes _ r hall (domainRegexAt_scheme scheme r rest hs hr hnw)
  · intro slashes r rest hurl hall hr hnw hns
    apply extractDomain_of_exec hostnameOf url r h
    rw [hurl]
    simp only [List.append_assoc]
    exact domainRegexExec_skip slashes _ r hall (domainRegexAt_plain r rest hr hnw hns)
  · rintro rfl
    unfold extractDomain
    rw [h]
    decide

/-- The fallback on `//WWW.Example.com/path`, an input the host parser
rejects: the slashes and the `WWW.` prefix are dropped and the run up to the
next `/` is returned. -/
theorem extractDomain_fallback_witness :
    extractDomain (fun _ => none) "//WWW.Example.com/path" = "Example.com" :=
  (extractDomain_fallback (fun _ => none) "//WWW.Example.com/path" rfl).2.2.2.1
    "//".toList "WWW.".toList "Example.com".toList "/path".toList rfl (by decide) (by decide)
    ⟨by decide, by decide, Or.inr rfl⟩

end ClassStacks
